import Mathlib

/-!
Shallow embedding of the Telegram content-delivery pipeline
(`database.py`, `content_manager.py`, `delivery_automater.py`,
`Continous_delivery.py`) and proofs about its claims.

Modelling conventions:
* SQL rows become Lean structures; the database is a pair of row lists.
* Python exceptions that a function catches become `Option`/`Bool` results;
  external effect outcomes (remote fetch, message transmit, ledger read)
  become boolean oracles passed as arguments.
* Python `float` arithmetic in the match scorer is modelled as exact
  rational arithmetic (`Rat`); all scores involved are small rationals.
-/

/-- Row of the `content_library` table (`database.py`, `init_db`). -/
structure Content where
  content_id : String
  content_name : String
  file_type : String
  google_drive_file_id : String
  uploaded_at : Nat
deriving DecidableEq, Repr

/-- Row of the `payments` table (`database.py`, `init_db`); the columns the
delivery pipeline reads and writes. -/
structure Payment where
  payment_id : String
  user_id : Int
  amount : Int
  currency : String
  status : String
  request_timestamp : Nat
  content_id : Option String
deriving DecidableEq, Repr

/-- Database state: the two tables the fulfillment pipeline touches. -/
structure DB where
  payments : List Payment
  contents : List Content
deriving DecidableEq, Repr

/-! ### String helpers mirroring the Python string operations used by the
matcher (`content_manager.py`, `find_best_content_match`). -/

/-- Python `str.lower()` (ASCII case folding, as used on catalog names). -/
def lowerStr (s : String) : String := String.mk (s.data.map Char.toLower)

/-- Helper for `pySplit`: accumulate the current token (reversed) while
scanning the character list. -/
def pySplitAux : List Char → List Char → List String
  | cur, [] => if cur.isEmpty then [] else [String.mk cur.reverse]
  | cur, c :: rest =>
    if c.isWhitespace then
      if cur.isEmpty then pySplitAux [] rest
      else String.mk cur.reverse :: pySplitAux [] rest
    else pySplitAux (c :: cur) rest

/-- Python `str.split()` with no argument: split on runs of whitespace,
discarding empty tokens. -/
def pySplit (s : String) : List String := pySplitAux [] s.data

/-- Helper for `strContains`: does some suffix of `hay` start with `needle`? -/
def strContainsAux (needle : List Char) : List Char → Bool
  | [] => needle.isEmpty
  | c :: rest => needle.isPrefixOf (c :: rest) || strContainsAux needle rest

/-- Python `needle in hay` on strings: substring test. -/
def strContains (hay needle : String) : Bool := strContainsAux needle.data hay.data

/-! ### Keyword matcher (`content_manager.py`, `find_best_content_match`). -/

/-- Score of one catalog item against the user hint, exactly as computed in
the loop body of `find_best_content_match` (lines 192-209): 100 on
case-insensitive equality, else 80 when every whitespace token of the hint is
a substring of the name, else `matching_words / total_words * 60`. -/
def matchScore (user_input content_name : String) : Rat :=
  let ui := lowerStr user_input
  let cn := lowerStr content_name
  if ui = cn then 100
  else if (pySplit ui).all (fun w => strContains cn w) then 80
  else (((pySplit ui).filter (fun w => strContains cn w)).length : Rat)
        / ((pySplit ui).length : Rat) * 60

/-- The best-match accumulator loop of `find_best_content_match`
(lines 189-214): start from `(None, 0)` and replace the best candidate when
an item scores strictly higher. -/
def bestLoop (ui : String) : Option Content × Rat → List Content → Option Content × Rat
  | acc, [] => acc
  | acc, c :: rest =>
    let s := matchScore ui c.content_name
    if acc.2 < s then bestLoop ui (some c, s) rest else bestLoop ui acc rest

/-- `find_best_content_match` (`content_manager.py`, lines 174-222) over an
explicit catalog listing: return the best-scoring item when its score clears
the acceptance threshold `40`, else `none`. -/
def find_best_content_match (user_input : String) (all_contents : List Content) :
    Option Content :=
  if all_contents.isEmpty then none
  else
    let r := bestLoop user_input (none, 0) all_contents
    match r.1 with
    | some b => if 40 ≤ r.2 then some b else none
    | none => none

/-! ### Catalog listing (`content_manager.py`, `list_contents`) and the
`recent` strategy (`delivery_automater.py`, `_determine_content_to_deliver`). -/

/-- Insert into a list kept in descending `uploaded_at` order. -/
def insertDescByUploaded (c : Content) : List Content → List Content
  | [] => [c]
  | q :: t =>
    if q.uploaded_at < c.uploaded_at then c :: q :: t
    else q :: insertDescByUploaded c t

/-- Sort contents by `uploaded_at` descending (one determinization of the
query `ORDER BY uploaded_at DESC`). -/
def sortByUploadedDesc : List Content → List Content
  | [] => []
  | c :: t => insertDescByUploaded c (sortByUploadedDesc t)

/-- `list_contents` (`content_manager.py`, lines 114-172) without a search
term: `SELECT ... FROM content_library ORDER BY uploaded_at DESC LIMIT %s`,
as an executable determinization (ties in `uploaded_at` resolved by stored
order; the SQL itself fixes no tie order, see `validListing`). -/
def list_contents (db : DB) (limit : Nat) : List Content :=
  (sortByUploadedDesc db.contents).take limit

/-- Relational contract of the same query: a result list is any permutation
of the table sorted by `uploaded_at` descending, truncated to the limit.
The query gives no secondary sort key, so the order among equal timestamps
is unspecified. -/
def validListing (contents : List Content) (limit : Nat) (l : List Content) : Prop :=
  ∃ l' : List Content, l'.Perm contents ∧
    l'.Pairwise (fun a b => b.uploaded_at ≤ a.uploaded_at) ∧ l = l'.take limit

/-- `_determine_content_to_deliver` (`delivery_automater.py`, lines 211-232):
return the head of the catalog listing (`contents[0]`) when the listing is
non-empty, else `None`; errors while listing are caught and yield `None`. -/
def determineContentToDeliver (listing : List Content) : Option Content :=
  listing.head?

/-! ### Payment Ledger operations (`database.py`). -/

/-- `get_payment_details` (`database.py`, lines 189-203):
`SELECT ... FROM payments WHERE payment_id = %s` on the primary key. -/
def get_payment_details (db : DB) (payment_id : String) : Option Payment :=
  db.payments.find? (fun p => p.payment_id = payment_id)

/-- `get_content_from_cms_library` (`database.py`, lines 241-264):
`SELECT ... FROM content_library WHERE content_id = %s` on the primary key. -/
def get_content_from_cms_library (db : DB) (content_id : String) : Option Content :=
  db.contents.find? (fun c => c.content_id = content_id)

/-- `link_content_to_payment` (`database.py`, lines 266-277):
`UPDATE payments SET content_id = %s, status = 'delivered' WHERE payment_id = %s`.
The schema from `init_db` (lines 81-96) puts the foreign key `fk_content` on
`payments.content_id`, so the update raises (here: `none`) when the content id
is not in `content_library`. -/
def link_content_to_payment (db : DB) (payment_id content_id : String) : Option DB :=
  if db.contents.any (fun c => c.content_id = content_id) then
    some { db with
      payments := db.payments.map (fun p =>
        if p.payment_id = payment_id then
          { p with content_id := some content_id, status := "delivered" }
        else p) }
  else none

/-- Insert into a list kept in ascending `request_timestamp` order. -/
def insertAscByRequest (p : Payment) : List Payment → List Payment
  | [] => [p]
  | q :: t =>
    if p.request_timestamp ≤ q.request_timestamp then p :: q :: t
    else q :: insertAscByRequest p t

/-- Sort payments by `request_timestamp` ascending. -/
def sortByRequestAsc : List Payment → List Payment
  | [] => []
  | p :: t => insertAscByRequest p (sortByRequestAsc t)

/-- `get_pending_payments_for_admin` (`database.py`, lines 326-339):
`SELECT ... FROM payments WHERE status = 'completed' AND content_id IS NULL
ORDER BY request_timestamp ASC`. -/
def get_pending_payments_for_admin (db : DB) : List Payment :=
  sortByRequestAsc (db.payments.filter
    (fun p => decide (p.status = "completed" ∧ p.content_id = none)))

/-! ### Delivery Executor (`delivery_automater.py`). -/

/-- Result of one `process_delivery` call: the returned boolean, the database
after the call, the remote-fetch attempts made (Google Drive file ids) and
the successful transmissions `(user_id, drive_file_id)` to users. -/
structure DeliveryResult where
  ok : Bool
  db : DB
  fetched : List String
  sent : List (Int × String)
deriving DecidableEq, Repr

/-- `_send_content_to_user` (`delivery_automater.py`, lines 234-278): download
the file from Google Drive, then send it to the user; any failure raises
(modelled as `false`). `fetchOk` and `transmitOk` are the outcomes of the two
external calls. The first component is success, the second the fetch attempts,
the third the completed transmissions. -/
def sendContentToUser (fetchOk : String → Bool) (transmitOk : Int → String → Bool)
    (user_id : Int) (google_drive_file_id : String) :
    Bool × List String × List (Int × String) :=
  if fetchOk google_drive_file_id then
    if transmitOk user_id google_drive_file_id then
      (true, [google_drive_file_id], [(user_id, google_drive_file_id)])
    else (false, [google_drive_file_id], [])
  else (false, [google_drive_file_id], [])

/-- `process_delivery` (`delivery_automater.py`, lines 64-135). The body is
wrapped in `try/except` returning `False`, so every failure path yields
`ok = false`. Steps: look up the payment, require `status = 'completed'`
(the `get_user_info` call at line 81 is a read used only for logging), resolve
the content from `content_id` or by name matching, send it, then link it to
the payment. A raising `link_content_to_payment` (foreign-key violation) is
caught by the outer `except`, leaving the database unchanged. -/
def process_delivery (db : DB) (fetchOk : String → Bool)
    (transmitOk : Int → String → Bool) (payment_id : String)
    (content_id : Option String) (content_name : Option String) : DeliveryResult :=
  match get_payment_details db payment_id with
  | none => ⟨false, db, [], []⟩
  | some payment =>
    if payment.status ≠ "completed" then ⟨false, db, [], []⟩
    else
      let contentOpt : Option Content :=
        match content_id with
        | some cid => get_content_from_cms_library db cid
        | none =>
          match content_name with
          | some nm =>
            match find_best_content_match nm (list_contents db 1000) with
            | some m => get_content_from_cms_library db m.content_id
            | none => none
          | none => none
      match contentOpt with
      | none => ⟨false, db, [], []⟩
      | some content =>
        let send := sendContentToUser fetchOk transmitOk payment.user_id
          content.google_drive_file_id
        if send.1 then
          match link_content_to_payment db payment_id content.content_id with
          | some db' => ⟨true, db', send.2.1, send.2.2⟩
          | none => ⟨false, db, send.2.1, send.2.2⟩
        else ⟨false, db, send.2.1, send.2.2⟩

/-! ### Fulfillment Scheduler (`Continous_delivery.py`). -/

/-- Result of one `check_and_process_deliveries` call: the `(success_count,
error_count)` pair, the database afterwards, and the payment ids attempted,
in processing order. -/
structure BatchResult where
  success_count : Nat
  error_count : Nat
  db : DB
  attempts : List String
deriving DecidableEq, Repr

/-- The `for delivery in pending_deliveries` loop of
`check_and_process_deliveries` (`Continous_delivery.py`, lines 64-92): each
item is matched with the `recent` strategy and delivered; success and failure
each bump exactly one counter and the loop continues either way. -/
def processBatch (fetchOk : String → Bool) (transmitOk : Int → String → Bool) :
    DB → List Payment → BatchResult
  | db, [] => ⟨0, 0, db, []⟩
  | db, d :: rest =>
    match determineContentToDeliver (list_contents db 1000) with
    | some c =>
      let r := process_delivery db fetchOk transmitOk d.payment_id
        (some c.content_id) none
      let tail := processBatch fetchOk transmitOk r.db rest
      if r.ok then
        ⟨tail.success_count + 1, tail.error_count, tail.db,
          d.payment_id :: tail.attempts⟩
      else
        ⟨tail.success_count, tail.error_count + 1, tail.db,
          d.payment_id :: tail.attempts⟩
    | none =>
      let tail := processBatch fetchOk transmitOk db rest
      ⟨tail.success_count, tail.error_count + 1, tail.db,
        d.payment_id :: tail.attempts⟩

/-- `check_and_process_deliveries` (`Continous_delivery.py`, lines 45-99).
`readOk` is the outcome of the ledger read inside `get_pending_deliveries`
(`delivery_automater.py`, lines 53-62), whose `except` turns a raising read
into `[]`; an empty pending list returns `(0, 0)` at once. The whole body is
wrapped in `try/except` returning `(0, 0)`, so the function never raises. -/
def check_and_process_deliveries (db : DB) (fetchOk : String → Bool)
    (transmitOk : Int → String → Bool) (readOk : Bool) : BatchResult :=
  let pending := if readOk then get_pending_payments_for_admin db else []
  if pending.isEmpty then ⟨0, 0, db, []⟩
  else processBatch fetchOk transmitOk db pending

/-- One iteration of the `while self.running` loop body of
`run_with_exponential_backoff` (`Continous_delivery.py`, lines 171-196).
`retry_count` is assigned `0` as the first statement of the `try` block,
before the cycle runs; when the iteration raises an uncaught error the
`except` branch increments it and computes `min(60 * 2 ** retry_count, 3600)`
as the wait (the random jitter added at line 193 is not modelled; see the
missing `random` import). Returns the new `retry_count` and the wait time. -/
def backoffIter (check_interval : Nat) (retry_count : Nat) (cycleRaises : Bool) :
    Nat × Nat :=
  let rc0 : Nat := 0
  if cycleRaises then
    let rc1 := rc0 + 1
    (rc1, min (60 * 2 ^ rc1) 3600)
  else (rc0, check_interval)

/-! ### Derived predicates used by the claims. -/

/-- The ordering used by `ORDER BY request_timestamp ASC`. -/
def rqLE (a b : Payment) : Prop := a.request_timestamp ≤ b.request_timestamp

/-- Referential integrity of one payment row: a non-null `content_id` points
at an existing `content_library` row. -/
def contentRefOk (db : DB) (p : Payment) : Prop :=
  ∀ cid, p.content_id = some cid → ∃ c ∈ db.contents, c.content_id = cid

/-- The ledger invariant of the spec (§3): `content_id` is non-null iff
`status = 'delivered'`, and a non-null `content_id` refers to an existing
catalog entry. -/
def payment_content_inv (db : DB) : Prop :=
  ∀ p ∈ db.payments,
    ((p.content_id ≠ none) ↔ p.status = "delivered") ∧ contentRefOk db p

/-- `c` is the first item of `l` attaining the maximal match score against
`ui`, and that score clears the acceptance threshold 40: everything before
`c` scores strictly lower, everything after scores no higher. -/
def isFirstBestAbove (ui : String) (l : List Content) (c : Content) : Prop :=
  ∃ pre post, l = pre ++ c :: post ∧ 40 ≤ matchScore ui c.content_name ∧
    (∀ d ∈ pre, matchScore ui d.content_name < matchScore ui c.content_name) ∧
    (∀ d ∈ post, matchScore ui d.content_name ≤ matchScore ui c.content_name)

/-! Concrete instances used by counterexamples and witnesses. -/

/-- Catalog item with the lexicographically smaller id of a C5 tie. -/
def c5A : Content := ⟨"a", "Old Movie", "document", "da", 10⟩

/-- Catalog item with the lexicographically larger id of a C5 tie. -/
def c5B : Content := ⟨"b", "New Movie", "document", "db", 10⟩

/-- A two-item catalog whose items share their `uploaded_at` timestamp. -/
def c5Cat : List Content := [c5B, c5A]

/-- First catalog item of the C9 counterexample (ordinary name). -/
def c9A : Content := ⟨"c1", "x", "document", "d1", 1⟩

/-- Second catalog item of the C9 counterexample: its name is the
whitespace-only hint itself. -/
def c9B : Content := ⟨"c2", " ", "document", "d2", 2⟩

/-- Catalog for the C9 counterexample. -/
def c9Cat : List Content := [c9A, c9B]

/-- A completed, undelivered payment used by concrete witnesses. -/
def wPayment : Payment :=
  ⟨"p1", 7, 500, "USD", "completed", 100, none⟩

/-- A catalog item used by concrete witnesses. -/
def wContent : Content := ⟨"k1", "Movie A", "video", "dk1", 50⟩

/-- A one-payment, one-content database used by concrete witnesses. -/
def wDB : DB := ⟨[wPayment], [wContent]⟩

/-! Sanity checks of the matcher on the spec's §8 scenario. -/

example : matchScore "movie a" "Movie A" = 100 := by decide

example : matchScore "movie a" "Movie Alpha" = 80 := by decide

example :
    find_best_content_match "movie a"
      [⟨"c1", "Movie Alpha", "document", "d1", 5⟩,
       ⟨"c2", "Movie A", "document", "d2", 4⟩] =
      some ⟨"c2", "Movie A", "document", "d2", 4⟩ := by decide

/-! ### Sorting lemmas for the pending-payments query. -/

instance : DecidableRel rqLE := fun a b => Nat.decLe _ _

instance : IsTotal Payment rqLE := ⟨fun a b => Nat.le_total _ _⟩

instance : IsTrans Payment rqLE := ⟨fun _ _ _ => Nat.le_trans⟩

theorem insertAscByRequest_eq (p : Payment) (l : List Payment) :
    insertAscByRequest p l = List.orderedInsert rqLE p l := by
  induction l with
  | nil => rfl
  | cons q t ih =>
    simp only [insertAscByRequest, List.orderedInsert, ih]
    rfl

theorem sortByRequestAsc_eq (l : List Payment) :
    sortByRequestAsc l = List.insertionSort rqLE l := by
  induction l with
  | nil => rfl
  | cons p t ih =>
    simp only [sortByRequestAsc, List.insertionSort, ih, insertAscByRequest_eq]

theorem mem_get_pending (db : DB) (p : Payment) :
    p ∈ get_pending_payments_for_admin db ↔
      p ∈ db.payments ∧ p.status = "completed" ∧ p.content_id = none := by
  unfold get_pending_payments_for_admin
  rw [sortByRequestAsc_eq, (List.perm_insertionSort rqLE _).mem_iff,
    List.mem_filter]
  simp

theorem sorted_get_pending (db : DB) :
    (get_pending_payments_for_admin db).Pairwise rqLE := by
  unfold get_pending_payments_for_admin
  rw [sortByRequestAsc_eq]
  exact List.sorted_insertionSort rqLE _

/-! ### Batch-loop lemmas. -/

theorem processBatch_spec (fo : String → Bool) (tr : Int → String → Bool)
    (l : List Payment) : ∀ db : DB,
    (processBatch fo tr db l).success_count + (processBatch fo tr db l).error_count
        = l.length ∧
      (processBatch fo tr db l).attempts = l.map (fun p => p.payment_id) := by
  induction l with
  | nil => intro db; simp [processBatch]
  | cons d rest ih =>
    intro db
    simp only [processBatch]
    cases hdet : determineContentToDeliver (list_contents db 1000) with
    | none =>
      obtain ⟨h1, h2⟩ := ih db
      simp only [List.length_cons, List.map_cons]
      constructor
      · omega
      · rw [h2]
    | some c =>
      obtain ⟨h1, h2⟩ :=
        ih (process_delivery db fo tr d.payment_id (some c.content_id) none).db
      by_cases hok : (process_delivery db fo tr d.payment_id (some c.content_id) none).ok
      · simp only [hok, if_true, List.length_cons, List.map_cons]
        constructor
        · omega
        · rw [h2]
      · simp only [hok, if_false, Bool.false_eq_true, List.length_cons, List.map_cons]
        constructor
        · omega
        · rw [h2]

theorem check_and_process_true_eq (db : DB) (fo : String → Bool)
    (tr : Int → String → Bool) :
    check_and_process_deliveries db fo tr true =
      if (get_pending_payments_for_admin db).isEmpty then ⟨0, 0, db, []⟩
      else processBatch fo tr db (get_pending_payments_for_admin db) := rfl

/-- Claim C7: each Checking phase selects exactly the payments with
`status = 'completed'` and null `content_id`, in ascending
`request_timestamp` order, and the batch attempts exactly those payments in
that order. -/
theorem c7_pending_selection_and_order : ∀ db : DB,
    (get_pending_payments_for_admin db).Pairwise
        (fun a b => a.request_timestamp ≤ b.request_timestamp)
      ∧ (∀ p : Payment, p ∈ get_pending_payments_for_admin db ↔
          p ∈ db.payments ∧ p.status = "completed" ∧ p.content_id = none)
      ∧ ∀ (fo : String → Bool) (tr : Int → String → Bool),
          (check_and_process_deliveries db fo tr true).attempts =
            (get_pending_payments_for_admin db).map (fun p => p.payment_id) := by
  intro db
  refine ⟨sorted_get_pending db, fun p => mem_get_pending db p, ?_⟩
  intro fo tr
  rw [check_and_process_true_eq]
  by_cases hemp : (get_pending_payments_for_admin db).isEmpty
  · rw [if_pos hemp]
    rw [List.isEmpty_iff] at hemp
    simp [hemp]
  · rw [if_neg hemp]
    exact (processBatch_spec fo tr (get_pending_payments_for_admin db) db).2

/-- Claim C8: within a batch pass every pending item is attempted and
contributes to exactly one of the two counters, so the counters sum to the
number of pending items; per-item failures are absorbed into `error_count`
and never stop the iteration. -/
theorem c8_batch_counts : ∀ (db : DB) (fo : String → Bool) (tr : Int → String → Bool),
    (check_and_process_deliveries db fo tr true).success_count
        + (check_and_process_deliveries db fo tr true).error_count
      = (get_pending_payments_for_admin db).length := by
  intro db fo tr
  rw [check_and_process_true_eq]
  by_cases hemp : (get_pending_payments_for_admin db).isEmpty
  · rw [if_pos hemp]
    rw [List.isEmpty_iff] at hemp
    simp [hemp]
  · rw [if_neg hemp]
    exact (processBatch_spec fo tr (get_pending_payments_for_admin db) db).1

/-- Claim C10: when the pending-list read raises, the exception is caught,
no state is mutated and the call returns `(0, 0)` — the same value as for an
empty batch; modelling exceptions as outcomes makes the function total, so
nothing escapes to the scheduler loop. -/
theorem c10_batch_pass_never_raises :
    ∀ (db : DB) (fo : String → Bool) (tr : Int → String → Bool),
      check_and_process_deliveries db fo tr false = ⟨0, 0, db, []⟩ ∧
      check_and_process_deliveries ⟨[], db.contents⟩ fo tr true = ⟨0, 0, ⟨[], db.contents⟩, []⟩ := by
  intro db fo tr
  exact ⟨rfl, rfl⟩

/-! ### Delivery Executor claims. -/

/-- Claim C1: when the remote fetch or the transmit step of a delivery
attempt fails, `process_delivery` returns failure, performs no ledger
mutation, and the payment stays `completed` with null `content_id`;
the write-back therefore happens only after a successful send. -/
theorem c1_no_writeback_on_send_failure
    (db : DB) (fo : String → Bool) (tr : Int → String → Bool)
    (pid cid : String) (p : Payment) (c : Content)
    (hp : get_payment_details db pid = some p)
    (hst : p.status = "completed")
    (hnull : p.content_id = none)
    (hc : get_content_from_cms_library db cid = some c)
    (hfail : fo c.google_drive_file_id = false ∨
      tr p.user_id c.google_drive_file_id = false) :
    (process_delivery db fo tr pid (some cid) none).ok = false ∧
    (process_delivery db fo tr pid (some cid) none).db = db ∧
    get_payment_details (process_delivery db fo tr pid (some cid) none).db pid
        = some p ∧
    p.status = "completed" ∧ p.content_id = none := by
  have hsend : (sendContentToUser fo tr p.user_id c.google_drive_file_id).1
      = false := by
    unfold sendContentToUser
    rcases hfail with hf | ht
    · simp [hf]
    · by_cases hfo : fo c.google_drive_file_id = true
      · simp [hfo, ht]
      · simp [hfo]
  unfold process_delivery
  simp [hp, hst, hc, hsend, hnull]

/-- Claim C1 witness: in the concrete one-payment database, with a remote
fetch that always fails, the delivery returns failure and the database is
unchanged. -/
theorem c1_witness :
    (process_delivery wDB (fun _ => false) (fun _ _ => true)
        "p1" (some "k1") none).ok = false ∧
    (process_delivery wDB (fun _ => false) (fun _ _ => true)
        "p1" (some "k1") none).db = wDB := by
  have h := c1_no_writeback_on_send_failure wDB (fun _ => false)
    (fun _ _ => true) "p1" "k1" wPayment wContent (by decide) (by decide)
    (by decide) (by decide) (Or.inl rfl)
  exact ⟨h.1, h.2.1⟩

/-- Claim C2: if the payment does not exist, or its status is not
`completed`, or the requested content id is not in the catalog,
`process_delivery` fails fast: it returns failure, mutates no ledger row,
fetches nothing and transmits nothing. -/
theorem c2_precondition_violation_no_side_effects
    (db : DB) (fo : String → Bool) (tr : Int → String → Bool) (pid : String)
    (cidArg nmArg : Option String)
    (hvio : get_payment_details db pid = none
      ∨ (∃ p, get_payment_details db pid = some p ∧ p.status ≠ "completed")
      ∨ (∃ cid, cidArg = some cid ∧
          get_content_from_cms_library db cid = none)) :
    (process_delivery db fo tr pid cidArg nmArg).ok = false ∧
    (process_delivery db fo tr pid cidArg nmArg).db = db ∧
    (process_delivery db fo tr pid cidArg nmArg).fetched = [] ∧
    (process_delivery db fo tr pid cidArg nmArg).sent = [] := by
  rcases hvio with h | ⟨p, hp, hst⟩ | ⟨cid, rfl, hc⟩
  · unfold process_delivery
    simp [h]
  · unfold process_delivery
    simp [hp, hst]
  · unfold process_delivery
    cases hgp : get_payment_details db pid with
    | none => simp
    | some p =>
      by_cases hst : p.status = "completed"
      · simp [hst, hc]
      · simp [hst]

/-- Claim C2 witness: delivering against a payment id absent from the ledger
fails with no side effects. -/
theorem c2_witness :
    (process_delivery wDB (fun _ => true) (fun _ _ => true)
        "missing" none none).ok = false ∧
    (process_delivery wDB (fun _ => true) (fun _ _ => true)
        "missing" none none).db = wDB ∧
    (process_delivery wDB (fun _ => true) (fun _ _ => true)
        "missing" none none).sent = [] := by
  have h := c2_precondition_violation_no_side_effects wDB (fun _ => true)
    (fun _ _ => true) "missing" none none (Or.inl (by decide))
  exact ⟨h.1, h.2.1, h.2.2.2⟩

theorem link_preserves_inv (db : DB) (pid cid : String) (db' : DB)
    (hinv : payment_content_inv db)
    (h : link_content_to_payment db pid cid = some db') :
    payment_content_inv db' := by
  unfold link_content_to_payment at h
  by_cases hfk : db.contents.any (fun c => decide (c.content_id = cid)) = true
  · rw [if_pos hfk] at h
    injection h with h
    subst h
    intro q hq
    simp only [List.mem_map] at hq
    obtain ⟨a, ha, rfl⟩ := hq
    by_cases hid : a.payment_id = pid
    · simp only [hid, if_true]
      constructor
      · simp
      · intro cid' hc'
        simp only [Option.some.injEq] at hc'
        subst hc'
        rcases List.any_eq_true.mp hfk with ⟨c, hcmem, hceq⟩
        exact ⟨c, hcmem, of_decide_eq_true hceq⟩
    · simp only [hid, if_false]
      exact ⟨(hinv a ha).1, (hinv a ha).2⟩
  · rw [if_neg hfk] at h
    cases h

theorem process_delivery_db_cases (db : DB) (fo : String → Bool)
    (tr : Int → String → Bool) (pid : String) (cidArg nmArg : Option String) :
    (process_delivery db fo tr pid cidArg nmArg).db = db ∨
    ∃ cid, link_content_to_payment db pid cid
      = some (process_delivery db fo tr pid cidArg nmArg).db := by
  unfold process_delivery
  cases hgp : get_payment_details db pid with
  | none => left; rfl
  | some p =>
    by_cases hst : p.status = "completed"
    · simp only [hst, ne_eq, not_true_eq_false, if_false]
      cases hco : (match cidArg with
        | some cid => get_content_from_cms_library db cid
        | none =>
          match nmArg with
          | some nm =>
            match find_best_content_match nm (list_contents db 1000) with
            | some m => get_content_from_cms_library db m.content_id
            | none => none
          | none => none : Option Content) with
      | none => left; rfl
      | some content =>
        by_cases hsend : (sendContentToUser fo tr p.user_id
            content.google_drive_file_id).1 = true
        · simp only [hsend, if_true]
          cases hlink : link_content_to_payment db pid content.content_id with
          | none => left; rfl
          | some db' => right; exact ⟨content.content_id, by rw [hlink]⟩
        · simp only [hsend, if_false]
          left; rfl
    · simp only [hst, ne_eq, not_false_eq_true, if_true]
      left; trivial

/-- Claim C3: the ledger invariant — `content_id` non-null iff
`status = 'delivered'`, with a non-null `content_id` referring to an existing
catalog entry — is preserved both by the write-back
`link_content_to_payment` (which sets `content_id` and `status = 'delivered'`
together, and whose foreign key rejects unknown content ids) and by any
`process_delivery` call. -/
theorem c3_invariant_preservation (db : DB) (hinv : payment_content_inv db) :
    (∀ (pid cid : String) (db' : DB),
        link_content_to_payment db pid cid = some db' →
          payment_content_inv db')
      ∧ ∀ (fo : String → Bool) (tr : Int → String → Bool) (pid : String)
          (cidArg nmArg : Option String),
          payment_content_inv (process_delivery db fo tr pid cidArg nmArg).db := by
  refine ⟨fun pid cid db' h => link_preserves_inv db pid cid db' hinv h, ?_⟩
  intro fo tr pid cidArg nmArg
  rcases process_delivery_db_cases db fo tr pid cidArg nmArg with h | ⟨cid, h⟩
  · rw [h]; exact hinv
  · exact link_preserves_inv db pid cid _ hinv h

/-- Claim C3 witness: the invariant holds for the concrete database and is
preserved by a concrete successful delivery. -/
theorem c3_witness : payment_content_inv wDB ∧
    payment_content_inv (process_delivery wDB (fun _ => true)
      (fun _ _ => true) "p1" (some "k1") none).db := by
  have hinv : payment_content_inv wDB := by
    intro p hp
    simp only [wDB, List.mem_singleton] at hp
    subst hp
    refine ⟨by simp [wPayment], ?_⟩
    intro cid hc
    simp [wPayment] at hc
  exact ⟨hinv, (c3_invariant_preservation wDB hinv).2 (fun _ => true)
    (fun _ _ => true) "p1" (some "k1") none⟩

/-! ### Matcher lemmas. -/

theorem matchScore_nonneg (h n : String) : 0 ≤ matchScore h n := by
  simp only [matchScore]
  split
  · norm_num
  · split
    · norm_num
    · apply mul_nonneg
      · exact div_nonneg (Nat.cast_nonneg _) (Nat.cast_nonneg _)
      · norm_num

theorem matchScore_partial_le (h n : String)
    (hne : lowerStr h ≠ lowerStr n)
    (hall : (pySplit (lowerStr h)).all
      (fun w => strContains (lowerStr n) w) = false) :
    matchScore h n ≤ 60 := by
  have htok : pySplit (lowerStr h) ≠ [] := by
    intro h0
    rw [h0] at hall
    simp at hall
  have ht1 : 1 ≤ (pySplit (lowerStr h)).length :=
    Nat.one_le_iff_ne_zero.mpr (fun h0 => htok (List.eq_nil_of_length_eq_zero h0))
  have hmt : ((pySplit (lowerStr h)).filter
      (fun w => strContains (lowerStr n) w)).length ≤ (pySplit (lowerStr h)).length :=
    List.length_filter_le _ _
  simp only [matchScore, if_neg hne, hall, Bool.false_eq_true, if_false]
  have hdiv : (((pySplit (lowerStr h)).filter
        (fun w => strContains (lowerStr n) w)).length : Rat)
      / ((pySplit (lowerStr h)).length : Rat) ≤ 1 := by
    rw [div_le_one (by exact_mod_cast ht1)]
    exact_mod_cast hmt
  calc (((pySplit (lowerStr h)).filter
        (fun w => strContains (lowerStr n) w)).length : Rat)
      / ((pySplit (lowerStr h)).length : Rat) * 60
      ≤ 1 * 60 := mul_le_mul_of_nonneg_right hdiv (by norm_num)
    _ = 60 := by norm_num

theorem matchScore_eq_100_iff (h n : String) :
    matchScore h n = 100 ↔ lowerStr h = lowerStr n := by
  constructor
  · intro hs
    by_contra hne
    by_cases hall : (pySplit (lowerStr h)).all
        (fun w => strContains (lowerStr n) w) = true
    · simp only [matchScore, if_neg hne, hall, if_true] at hs
      norm_num at hs
    · have hb := matchScore_partial_le h n hne (eq_false_of_ne_true hall)
      rw [hs] at hb
      norm_num at hb
  · intro he
    simp [matchScore, he]

theorem matchScore_eq_80_iff (h n : String) :
    matchScore h n = 80 ↔ (lowerStr h ≠ lowerStr n ∧
      (pySplit (lowerStr h)).all (fun w => strContains (lowerStr n) w) = true) := by
  constructor
  · intro hs
    by_cases hne : lowerStr h = lowerStr n
    · simp only [matchScore, if_pos hne] at hs
      norm_num at hs
    · by_cases hall : (pySplit (lowerStr h)).all
          (fun w => strContains (lowerStr n) w) = true
      · exact ⟨hne, hall⟩
      · have hb := matchScore_partial_le h n hne (eq_false_of_ne_true hall)
        rw [hs] at hb
        norm_num at hb
  · rintro ⟨hne, hall⟩
    simp [matchScore, hne, hall]

theorem matchScore_partial_eq (h n : String)
    (hne : lowerStr h ≠ lowerStr n)
    (hall : (pySplit (lowerStr h)).all
      (fun w => strContains (lowerStr n) w) = false) :
    matchScore h n =
      (((pySplit (lowerStr h)).filter
          (fun w => strContains (lowerStr n) w)).length : Rat)
        / ((pySplit (lowerStr h)).length : Rat) * 60 := by
  simp only [matchScore, if_neg hne, hall, Bool.false_eq_true, if_false]

theorem bestLoop_first_max (ui : String) (l : List Content) :
    ∀ (b0 : Option Content) (s0 : Rat),
      (bestLoop ui (b0, s0) l = (b0, s0) ∧
        ∀ d ∈ l, matchScore ui d.content_name ≤ s0)
      ∨ (∃ pre c post, l = pre ++ c :: post ∧
          bestLoop ui (b0, s0) l = (some c, matchScore ui c.content_name) ∧
          s0 < matchScore ui c.content_name ∧
          (∀ d ∈ pre, matchScore ui d.content_name < matchScore ui c.content_name) ∧
          (∀ d ∈ post, matchScore ui d.content_name ≤ matchScore ui c.content_name)) := by
  induction l with
  | nil =>
    intro b0 s0
    left
    exact ⟨rfl, by simp⟩
  | cons a t ih =>
    intro b0 s0
    by_cases ha : s0 < matchScore ui a.content_name
    · have hstep : bestLoop ui (b0, s0) (a :: t)
          = bestLoop ui (some a, matchScore ui a.content_name) t := by
        simp only [bestLoop]
        rw [if_pos ha]
      rcases ih (some a) (matchScore ui a.content_name) with
        ⟨heq, hall⟩ | ⟨pre, c, post, hsplit, heq, hlt, hpre, hpost⟩
      · right
        exact ⟨[], a, t, rfl, by rw [hstep, heq], ha, by simp, hall⟩
      · right
        refine ⟨a :: pre, c, post, by simp [hsplit], by rw [hstep, heq],
          lt_trans ha hlt, ?_, hpost⟩
        intro d hd
        rcases List.mem_cons.mp hd with rfl | hd'
        · exact hlt
        · exact hpre d hd'
    · have hstep : bestLoop ui (b0, s0) (a :: t) = bestLoop ui (b0, s0) t := by
        simp only [bestLoop]
        rw [if_neg ha]
      rcases ih b0 s0 with
        ⟨heq, hall⟩ | ⟨pre, c, post, hsplit, heq, hlt, hpre, hpost⟩
      · left
        refine ⟨by rw [hstep, heq], ?_⟩
        intro d hd
        rcases List.mem_cons.mp hd with rfl | hd'
        · exact not_lt.mp ha
        · exact hall d hd'
      · right
        refine ⟨a :: pre, c, post, by simp [hsplit], by rw [hstep, heq], hlt, ?_, hpost⟩
        intro d hd
        rcases List.mem_cons.mp hd with rfl | hd'
        · exact lt_of_le_of_lt (not_lt.mp ha) hlt
        · exact hpre d hd'

theorem first_max_unique {ui : String} {l pre post pre' post' : List Content}
    {c c' : Content}
    (h1 : l = pre ++ c :: post) (h2 : l = pre' ++ c' :: post')
    (hpre : ∀ d ∈ pre, matchScore ui d.content_name < matchScore ui c.content_name)
    (hpost : ∀ d ∈ post, matchScore ui d.content_name ≤ matchScore ui c.content_name)
    (hpre' : ∀ d ∈ pre', matchScore ui d.content_name < matchScore ui c'.content_name)
    (hpost' : ∀ d ∈ post', matchScore ui d.content_name ≤ matchScore ui c'.content_name) :
    c = c' := by
  have heq : pre ++ c :: post = pre' ++ c' :: post' := h1.symm.trans h2
  rcases List.append_eq_append_iff.mp heq with ⟨mid, hp1, hp2⟩ | ⟨mid, hp1, hp2⟩
  · cases mid with
    | nil =>
      simp only [List.nil_append, List.cons.injEq] at hp2
      exact hp2.1
    | cons m mr =>
      injection hp2 with hcm hrest
      subst hcm
      have hc_in : c ∈ pre' := by
        rw [hp1]
        simp
      have hc'_in : c' ∈ post := by
        rw [hrest]
        simp
      have ha : matchScore ui c.content_name < matchScore ui c'.content_name :=
        hpre' c hc_in
      have hb : matchScore ui c'.content_name ≤ matchScore ui c.content_name :=
        hpost c' hc'_in
      exact absurd ha (not_lt.mpr hb)
  · cases mid with
    | nil =>
      simp only [List.nil_append, List.cons.injEq] at hp2
      exact hp2.1.symm
    | cons m mr =>
      injection hp2 with hcm hrest
      subst hcm
      have hc'_in : c' ∈ pre := by
        rw [hp1]
        simp
      have hc_in : c ∈ post' := by
        rw [hrest]
        simp
      have ha : matchScore ui c'.content_name < matchScore ui c.content_name :=
        hpre c' hc'_in
      have hb : matchScore ui c.content_name ≤ matchScore ui c'.content_name :=
        hpost' c hc_in
      exact absurd ha (not_lt.mpr hb)

theorem find_best_content_match_eq_some_iff (ui : String) (l : List Content)
    (c : Content) :
    find_best_content_match ui l = some c ↔ isFirstBestAbove ui l c := by
  constructor
  · intro hfind
    rcases bestLoop_first_max ui l none 0 with
      ⟨heq, _⟩ | ⟨pre, c0, post, hsplit, heq, _, hpre, hpost⟩
    · exfalso
      unfold find_best_content_match at hfind
      by_cases hemp : l.isEmpty
      · rw [if_pos hemp] at hfind
        cases hfind
      · rw [if_neg hemp] at hfind
        rw [heq] at hfind
        simp at hfind
    · unfold find_best_content_match at hfind
      rw [if_neg (by rw [hsplit]; simp)] at hfind
      rw [heq] at hfind
      simp only at hfind
      by_cases h40 : (40 : Rat) ≤ matchScore ui c0.content_name
      · rw [if_pos h40] at hfind
        injection hfind with hfind
        subst hfind
        exact ⟨pre, post, hsplit, h40, hpre, hpost⟩
      · rw [if_neg h40] at hfind
        cases hfind
  · rintro ⟨pre, post, hsplit, h40, hpre, hpost⟩
    rcases bestLoop_first_max ui l none 0 with
      ⟨_, hall⟩ | ⟨pre', c', post', hsplit', heq, _, hpre', hpost'⟩
    · exfalso
      have hcmem : c ∈ l := by
        rw [hsplit]
        simp
      have hle := hall c hcmem
      have : (40 : Rat) ≤ 0 := le_trans h40 hle
      norm_num at this
    · have hcc : c' = c := first_max_unique hsplit' hsplit hpre' hpost' hpre hpost
      subst hcc
      unfold find_best_content_match
      rw [if_neg (by rw [hsplit']; simp)]
      rw [heq]
      simp only
      rw [if_pos h40]

theorem find_best_some_iff_threshold (ui : String) (l : List Content) :
    (∃ c, find_best_content_match ui l = some c) ↔
      ∃ d ∈ l, 40 ≤ matchScore ui d.content_name := by
  constructor
  · rintro ⟨c, hc⟩
    obtain ⟨pre, post, hsplit, h40, _, _⟩ :=
      (find_best_content_match_eq_some_iff ui l c).mp hc
    refine ⟨c, by rw [hsplit]; simp, h40⟩
  · rintro ⟨d, hd, h40⟩
    rcases bestLoop_first_max ui l none 0 with
      ⟨_, hall⟩ | ⟨pre, c, post, hsplit, _, _, hpre, hpost⟩
    · exfalso
      have hle := hall d hd
      have : (40 : Rat) ≤ 0 := le_trans h40 hle
      norm_num at this
    · have hd_le : matchScore ui d.content_name ≤ matchScore ui c.content_name := by
        rw [hsplit] at hd
        rcases List.mem_append.mp hd with hd1 | hd2
        · exact le_of_lt (hpre d hd1)
        · rcases List.mem_cons.mp hd2 with rfl | hd3
          · exact le_refl _
          · exact hpost d hd3
      exact ⟨c, (find_best_content_match_eq_some_iff ui l c).mpr
        ⟨pre, post, hsplit, le_trans h40 hd_le, hpre, hpost⟩⟩

/-- Claim C4: the keyword matcher's score is 100 exactly on case-insensitive
equality, 80 exactly when the hint is not equal but every hint token is a
substring of the name, and `(matched_tokens / total_tokens) * 60` otherwise;
a match is returned exactly when some item clears the threshold 40, and the
returned item is the first-seen item attaining the maximal score. -/
theorem c4_keyword_matcher :
    (∀ h n : String,
        (matchScore h n = 100 ↔ lowerStr h = lowerStr n)
        ∧ (matchScore h n = 80 ↔ (lowerStr h ≠ lowerStr n ∧
            (pySplit (lowerStr h)).all (fun w => strContains (lowerStr n) w) = true))
        ∧ (lowerStr h ≠ lowerStr n →
            (pySplit (lowerStr h)).all (fun w => strContains (lowerStr n) w) = false →
            matchScore h n =
              (((pySplit (lowerStr h)).filter
                  (fun w => strContains (lowerStr n) w)).length : Rat)
                / ((pySplit (lowerStr h)).length : Rat) * 60))
    ∧ (∀ (h : String) (l : List Content) (c : Content),
        find_best_content_match h l = some c ↔ isFirstBestAbove h l c)
    ∧ (∀ (h : String) (l : List Content),
        (∃ c, find_best_content_match h l = some c) ↔
          ∃ d ∈ l, 40 ≤ matchScore h d.content_name) := by
  refine ⟨fun h n => ⟨matchScore_eq_100_iff h n, matchScore_eq_80_iff h n,
      matchScore_partial_eq h n⟩,
    fun h l c => find_best_content_match_eq_some_iff h l c,
    fun h l => find_best_some_iff_threshold h l⟩

/-- Claim C4 witness: the spec's §8 scenario, derived by applying the claim
theorem at concrete inputs. -/
theorem c4_witness :
    matchScore "movie a" "Movie A" = 100 ∧
    matchScore "movie a" "Movie Alpha" = 80 ∧
    find_best_content_match "movie a"
        [⟨"c1", "Movie Alpha", "document", "d1", 5⟩,
         ⟨"c2", "Movie A", "document", "d2", 4⟩]
      = some ⟨"c2", "Movie A", "document", "d2", 4⟩ := by
  refine ⟨(c4_keyword_matcher.1 "movie a" "Movie A").1.mpr (by decide),
    (c4_keyword_matcher.1 "movie a" "Movie Alpha").2.1.mpr ⟨by decide, by decide⟩,
    (c4_keyword_matcher.2.1 "movie a" _ _).mpr ?_⟩
  refine ⟨[⟨"c1", "Movie Alpha", "document", "d1", 5⟩], [], rfl, by decide, ?_, ?_⟩
  · intro d hd
    simp only [List.mem_singleton] at hd
    subst hd
    decide
  · intro d hd
    simp at hd

/-- Claim C9 (counterexample): with the whitespace-only hint `" "` and the
catalog `[c9A, c9B]` where `c9B`'s name is `" "` itself, the matcher returns
the second item with score 100, not the first item with score 80. -/
theorem c9_counterexample :
    pySplit (lowerStr " ") = [] ∧ c9Cat.head? = some c9A ∧
    find_best_content_match " " c9Cat = some c9B ∧ c9B ≠ c9A ∧
    matchScore " " c9B.content_name = 100 := by
  exact ⟨by decide, rfl, by decide, by decide, by decide⟩

/-- Claim C9 (amended): for a non-empty catalog in which no item's
lower-cased name equals the lower-cased hint, an empty or whitespace-only
hint (empty token list) makes every item score 80 — the all-tokens-contained
check is vacuously true, so the zero-divisor branch is never reached — and
the matcher returns the first item of the listing, since 80 clears the
threshold. -/
theorem c9_empty_hint_first_item (h : String) (l : List Content)
    (htok : pySplit (lowerStr h) = [])
    (hne : l ≠ [])
    (hnoeq : ∀ c ∈ l, lowerStr c.content_name ≠ lowerStr h) :
    find_best_content_match h l = l.head? ∧
    ∀ c ∈ l, matchScore h c.content_name = 80 := by
  have hscore : ∀ c ∈ l, matchScore h c.content_name = 80 := by
    intro c hc
    have hne' : lowerStr h ≠ lowerStr c.content_name :=
      fun he => (hnoeq c hc) he.symm
    simp [matchScore, hne', htok]
  refine ⟨?_, hscore⟩
  cases l with
  | nil => cases hne rfl
  | cons a t =>
    rcases bestLoop_first_max h (a :: t) none 0 with
      ⟨_, hall⟩ | ⟨pre, c, post, hsplit, heq, _, hpre, hpost⟩
    · exfalso
      have hb := hall a (List.mem_cons_self a t)
      rw [hscore a (List.mem_cons_self a t)] at hb
      norm_num at hb
    · have hpre_nil : pre = [] := by
        cases pre with
        | nil => rfl
        | cons x xs =>
          exfalso
          have hx_mem : x ∈ a :: t := by
            rw [hsplit]
            simp
          have hc_mem : c ∈ a :: t := by
            rw [hsplit]
            simp
          have hb := hpre x (List.mem_cons_self x xs)
          rw [hscore x hx_mem, hscore c hc_mem] at hb
          exact lt_irrefl _ hb
      subst hpre_nil
      simp only [List.nil_append] at hsplit
      injection hsplit with h1 h2
      subst h1
      have h40 : (40 : Rat) ≤ matchScore h a.content_name := by
        rw [hscore a (List.mem_cons_self a t)]
        norm_num
      unfold find_best_content_match
      rw [if_neg (by simp)]
      rw [heq]
      simp only
      rw [if_pos h40]
      rfl

/-- Claim C9 witness: with the empty hint and a one-item catalog with an
ordinary name, the matcher returns that first item. -/
theorem c9_witness : find_best_content_match "" [c9A] = some c9A := by
  have h := c9_empty_hint_first_item "" [c9A] (by decide) (by decide) (by decide)
  rw [h.1]
  rfl

/-! ### Recent-strategy lemmas. -/

theorem head?_take_of_ne_zero {α : Type} (n : Nat) (l : List α) (hn : n ≠ 0) :
    (l.take n).head? = l.head? := by
  cases n with
  | zero => cases hn rfl
  | succ m => cases l <;> simp

/-- Claim C5 (counterexample): on the catalog `c5Cat` whose two items share
`uploaded_at = 10`, both `[c5B, c5A]` and `[c5A, c5B]` are valid results of
the `ORDER BY uploaded_at DESC` query; the recent strategy returns `c5B`
(larger `content_id`) on the first and `c5A` on the second, so neither the
lexicographic tie-break nor cross-call determinism holds. -/
theorem c5_counterexample :
    validListing c5Cat 1000 [c5B, c5A] ∧ validListing c5Cat 1000 [c5A, c5B]
    ∧ determineContentToDeliver [c5B, c5A] = some c5B
    ∧ determineContentToDeliver [c5A, c5B] = some c5A
    ∧ c5A.uploaded_at = c5B.uploaded_at ∧ c5A.content_id.data < c5B.content_id.data
    ∧ c5A ≠ c5B := by
  refine ⟨⟨[c5B, c5A], by decide, by decide, rfl⟩,
    ⟨[c5A, c5B], by decide, by decide, rfl⟩, rfl, rfl, rfl, by decide, by decide⟩

/-- Claim C5 (amended): on a non-empty catalog the recent strategy returns
an item carrying the maximal `uploaded_at`; the order among items sharing
that timestamp is unspecified by the query, so no particular tied item is
guaranteed. -/
theorem c5_recent_returns_newest (contents l : List Content)
    (hl : validListing contents 1000 l) :
    (contents ≠ [] → ∃ c, determineContentToDeliver l = some c)
    ∧ ∀ c, determineContentToDeliver l = some c →
        ∀ d ∈ contents, d.uploaded_at ≤ c.uploaded_at := by
  obtain ⟨l', hperm, hsort, rfl⟩ := hl
  constructor
  · intro hne
    have hl'ne : l' ≠ [] := by
      intro h0
      rw [h0] at hperm
      exact hne (List.Perm.eq_nil hperm.symm)
    cases l' with
    | nil => cases hl'ne rfl
    | cons a t =>
      refine ⟨a, ?_⟩
      unfold determineContentToDeliver
      rw [head?_take_of_ne_zero 1000 (a :: t) (by decide)]
      rfl
  · intro c hc d hd
    unfold determineContentToDeliver at hc
    rw [head?_take_of_ne_zero 1000 l' (by decide)] at hc
    cases l' with
    | nil => cases hc
    | cons a t =>
      simp only [List.head?_cons, Option.some.injEq] at hc
      subst hc
      have hd' : d ∈ a :: t := (hperm.mem_iff).mpr hd
      rcases List.mem_cons.mp hd' with rfl | hdt
      · exact le_refl _
      · exact (List.pairwise_cons.mp hsort).1 d hdt

/-- Claim C5 witness: the amended theorem applied to a concrete valid
listing of `c5Cat`. -/
theorem c5_witness :
    determineContentToDeliver [c5B, c5A] = some c5B ∧
    c5A.uploaded_at ≤ c5B.uploaded_at := by
  have h := c5_recent_returns_newest c5Cat [c5B, c5A]
    ⟨[c5B, c5A], by decide, by decide, rfl⟩
  exact ⟨rfl, h.2 c5B rfl c5A (by decide)⟩

/-- Claim C6 (code bug): the loop body of `run_with_exponential_backoff`
resets `retry_count` to zero at the top of every iteration, before the cycle
runs, so the incoming `retry_count` never influences the computed wait: two
successive uncaught errors both wait `min(60 * 2^1, 3600) = 120` seconds and
the waits do not strictly increase towards 3600. -/
theorem c6_backoff_never_escalates :
    (∀ (ci rc : Nat) (raises : Bool), backoffIter ci rc raises = backoffIter ci 0 raises)
      ∧ (backoffIter 300 0 true).2 = 120
      ∧ (backoffIter 300 (backoffIter 300 0 true).1 true).2 = 120
      ∧ ¬ (backoffIter 300 0 true).2 < (backoffIter 300 (backoffIter 300 0 true).1 true).2 := by
  exact ⟨fun ci rc raises => rfl, by decide, by decide, by decide⟩
